import Mathlib

/-!
Verification development for the MarkItDownFileIndexer repository
(`create_index.py` + `schema.py`).

The Python program walks a filesystem subtree and records files and
directories in a SQLite catalog (`files`, `directories`, `directory_docs`,
`directory_tags`, `directory_relations`, `processing_queue` tables), and
offers annotation operations on cataloged directories.

Shallow embedding notes:
* SQLite tables are Lean lists of row structures; `INSERT OR REPLACE`
  deletes the row with the conflicting unique path and inserts a fresh row
  whose rowid is one greater than the largest rowid remaining in the table
  (SQLite's rowid allocation; the `id INTEGER PRIMARY KEY` column is never
  supplied by the program). Foreign keys are declared in `schema.py` but
  SQLite does not enforce them without `PRAGMA foreign_keys`, which the
  program never issues, so the embedding does not enforce them either.
* Timestamps are abstract `Nat` clock values passed in explicitly
  (`datetime.now()` becomes a parameter).
* The MD5 digest (`hashlib`, an external library) is abstracted: a
  filesystem file carries the digest the streamed read would produce, or
  `none` when the read raises, matching `_calculate_checksum`'s
  try/except that returns `None` on any read failure.
* `markitdown`'s converter (external) is abstracted to its three observable
  outcomes: extracted text, an UnsupportedFormatException, or another
  exception.
* `pathlib.PurePosixPath` name/parent/parts/suffix are translated directly
  as character-list functions on POSIX-style path strings.
-/

/-- Split a character list on a separator character (like `str.split(sep)`). -/
def splitOnChar (sep : Char) : List Char → List (List Char)
  | [] => [[]]
  | c :: cs =>
    let r := splitOnChar sep cs
    if c = sep then [] :: r else (c :: r.headD []) :: r.tail

/-- The normalized path components of a POSIX path string: split on `/`,
dropping empty components and `.` components (as `pathlib` normalization
does). -/
def pathComps (p : String) : List (List Char) :=
  (splitOnChar '/' p.data).filter (fun c => decide (c ≠ [] ∧ c ≠ ['.']))

/-- Whether the path string is absolute (starts with `/`). -/
def pathIsAbs (p : String) : Bool :=
  p.data.head? = some '/'

/-- `Path(p).name`: the final path component, `""` when there is none. -/
def pathName (p : String) : String :=
  String.mk ((pathComps p).getLast?.getD [])

/-- `str(Path(p).parent)`: the path with its final component removed. -/
def parentPath (p : String) : String :=
  match pathComps p with
  | [] => if pathIsAbs p then "/" else "."
  | [_] => if pathIsAbs p then "/" else "."
  | cs => (if pathIsAbs p then "/" else "") ++
      String.mk (List.intercalate ['/'] cs.dropLast)

/-- `len(Path(p).parts)`: the number of path components, counting the root
`/` of an absolute path as one component. -/
def pathDepth (p : String) : Nat :=
  (pathComps p).length + (if pathIsAbs p then 1 else 0)

/-- The index of the last `.` in a character list (`str.rfind('.')`),
`none` when absent. -/
def lastDotPos (cs : List Char) : Option Nat :=
  ((List.range cs.length).filter (fun i => decide (cs.getD i ' ' = '.'))).getLast?

/-- `Path(p).suffix`: the extension of the final component including its
dot, empty when the last dot is at position 0 (dotfile) or at the very end,
following CPython's `0 < i < len(name) - 1` rule. -/
def pathSuffix (p : String) : List Char :=
  let n := (pathName p).data
  match lastDotPos n with
  | some i => if 0 < i ∧ i + 1 < n.length then n.drop i else []
  | none => []

/-- `Path(file_path).suffix.lower().lstrip('.')`: the extension used by
`_process_file`, lower-cased with every leading dot removed. -/
def fileExtOf (p : String) : String :=
  String.mk (((pathSuffix p).map Char.toLower).dropWhile (fun c => decide (c = '.')))

/-! ## Catalog rows (the SQLite tables of `schema.py`) -/

/-- A row of the `files` table (columns the program writes; columns it
always leaves NULL are omitted). -/
structure FileRow where
  id : Nat
  file_path : String
  file_name : String
  file_extension : String
  file_size : Nat
  created_at : Nat
  modified_at : Nat
  indexed_at : Nat
  checksum : Option String
  markdown_content : Option String
  processing_status : String
  error_message : Option String
  deriving DecidableEq, Repr

/-- A row of the `directories` table (columns the program writes). -/
structure DirRow where
  id : Nat
  dir_path : String
  dir_name : String
  parent_dir_path : String
  depth : Nat
  created_at : Nat
  modified_at : Nat
  indexed_at : Nat
  last_documented_at : Option Nat
  deriving DecidableEq, Repr

/-- A row of the `processing_queue` table (columns the program writes). -/
structure QueueRow where
  file_id : Nat
  status : String
  created_at : Nat
  deriving DecidableEq, Repr

/-- A row of the `directory_docs` table (columns the program writes). -/
structure DocRow where
  directory_id : Nat
  version : Nat
  title : String
  description : String
  purpose : String
  guidelines : String
  created_at : Nat
  created_by : String
  is_current : Bool
  deriving DecidableEq, Repr

/-- A row of the `directory_tags` table (columns the program writes). -/
structure TagRow where
  directory_id : Nat
  tag_name : String
  created_at : Nat
  created_by : String
  deriving DecidableEq, Repr

/-- A row of the `directory_relations` table (columns the program writes). -/
structure RelRow where
  source_dir_id : Nat
  target_dir_id : Nat
  relation_type : String
  description : String
  created_at : Nat
  deriving DecidableEq, Repr

/-- The catalog database: the tables of `schema.py` that the indexer
reads and writes (the `file_formats` table is abstracted to the enabled
extension set, which `FileIndexer.__init__` loads once per run and passes
around as `self.supported_formats`). -/
structure DB where
  files : List FileRow
  directories : List DirRow
  docs : List DocRow
  tags : List TagRow
  relations : List RelRow
  queue : List QueueRow
  deriving DecidableEq, Repr

/-- The empty catalog produced by `init_database` (no files indexed yet). -/
def emptyDB : DB := ⟨[], [], [], [], [], []⟩

/-! ## Filesystem abstraction for one ingestion run -/

/-- The result of a successful `os.stat` call. -/
structure StatInfo where
  size : Nat
  ctime : Nat
  mtime : Nat
  deriving DecidableEq, Repr

/-- The observable outcome of `MarkItDown.convert` on a file: extracted
text, an `UnsupportedFormatException`, or any other exception. -/
inductive ConvOutcome where
  | ok (text : String)
  | unsupported (msg : String)
  | err (msg : String)
  deriving DecidableEq, Repr

/-- A file as the traversal encounters it: its path, the outcome of
`os.stat` (`none` models the call raising), the digest the streamed
checksum read would produce (`none` models the read raising, which
`_calculate_checksum` turns into `None`), and the converter outcome. -/
structure FSFile where
  path : String
  stat : Option StatInfo
  checksum : Option String
  conv : ConvOutcome
  deriving DecidableEq, Repr

/-- A directory as the traversal encounters it (`none` stat models
`os.stat` raising inside `_process_directory`). -/
structure FSDir where
  path : String
  stat : Option StatInfo
  deriving DecidableEq, Repr

/-- One entry yielded by `root_path.rglob('*')`, in traversal order. -/
inductive Entry where
  | file (f : FSFile)
  | dir (d : FSDir)
  deriving DecidableEq, Repr

/-- The `file_info` dict built by `_process_file`. -/
structure FileInfo where
  file_path : String
  file_name : String
  file_extension : String
  file_size : Nat
  created_at : Nat
  modified_at : Nat
  indexed_at : Nat
  checksum : Option String
  processing_status : String
  markdown_content : Option String
  error_message : Option String
  deriving DecidableEq, Repr

/-- `FileIndexer._calculate_checksum`: the MD5 digest of the file's
content, or `None` when opening/reading the file raises (the except
branch logs and returns `None`). -/
def calculate_checksum (f : FSFile) : Option String :=
  f.checksum

/-- `FileIndexer._process_file`: build the `file_info` dict from `os.stat`
metadata and the checksum, then classify by extension: an enabled
extension goes through the converter (`processed` on success, `skipped` on
`UnsupportedFormatException`, `failed` on any other exception), a disabled
extension is `skipped` with a message naming the extension. When `os.stat`
itself raises, the outer except returns `None`. -/
def process_file (fmts : List String) (now : Nat) (f : FSFile) : Option FileInfo :=
  match f.stat with
  | none => none
  | some st =>
    let ext := fileExtOf f.path
    let base : FileInfo :=
      { file_path := f.path
        file_name := pathName f.path
        file_extension := ext
        file_size := st.size
        created_at := st.ctime
        modified_at := st.mtime
        indexed_at := now
        checksum := calculate_checksum f
        processing_status := "skipped"
        markdown_content := none
        error_message := none }
    if ext ∈ fmts then
      match f.conv with
      | .ok text =>
          some { base with markdown_content := some text, processing_status := "processed" }
      | .unsupported e =>
          some { base with processing_status := "skipped"
                           error_message := some ("Unsupported format: " ++ e) }
      | .err e =>
          some { base with processing_status := "failed", error_message := some e }
    else
      some { base with processing_status := "skipped"
                       error_message := some ("Unsupported file format: ." ++ ext) }

/-- The largest rowid present in a list of rowids (0 for an empty table);
SQLite assigns `maxRowid + 1` to an inserted row with an unspecified
INTEGER PRIMARY KEY. -/
def maxRowid (ids : List Nat) : Nat :=
  ids.foldr max 0

/-- `INSERT OR REPLACE INTO files`: delete any row with the same unique
`file_path`, then insert the new row with a freshly allocated rowid.
Returns the new table and the new row's id. -/
def insertOrReplaceFile (files : List FileRow) (info : FileInfo) : List FileRow × Nat :=
  let rest := files.filter (fun r => decide (r.file_path ≠ info.file_path))
  let nid := maxRowid (rest.map (·.id)) + 1
  (rest ++ [{ id := nid
              file_path := info.file_path
              file_name := info.file_name
              file_extension := info.file_extension
              file_size := info.file_size
              created_at := info.created_at
              modified_at := info.modified_at
              indexed_at := info.indexed_at
              checksum := info.checksum
              markdown_content := info.markdown_content
              processing_status := info.processing_status
              error_message := info.error_message }], nid)

/-- `FileIndexer._save_to_db`: insert-or-replace the `files` row; when the
record's status is `processed`, additionally insert a `processing_queue`
row whose `file_id` is `SELECT id FROM files WHERE file_path = ?` evaluated
after the replace (i.e. the freshly allocated id), with status `pending`.
Both statements commit together. -/
def save_to_db (db : DB) (info : FileInfo) (now : Nat) : DB :=
  let fr := insertOrReplaceFile db.files info
  let queue' :=
    if info.processing_status = "processed" then
      db.queue ++ [{ file_id := fr.2, status := "pending", created_at := now }]
    else
      db.queue
  { db with files := fr.1, queue := queue' }

/-- `FileIndexer._process_directory`: stat the directory and
insert-or-replace its `directories` row (fresh rowid, unspecified columns
such as `last_documented_at` become NULL). When `os.stat` raises, the
except branch rolls back and the catalog is unchanged. -/
def process_directory (db : DB) (d : FSDir) (now : Nat) : DB :=
  match d.stat with
  | none => db
  | some st =>
    let rest := db.directories.filter (fun r => decide (r.dir_path ≠ d.path))
    let nid := maxRowid (rest.map (·.id)) + 1
    let row : DirRow :=
      { id := nid
        dir_path := d.path
        dir_name := pathName d.path
        parent_dir_path := parentPath d.path
        depth := pathDepth d.path
        created_at := st.ctime
        modified_at := st.mtime
        indexed_at := now
        last_documented_at := none }
    { db with directories := rest ++ [row] }

/-- One step of the `rglob` loop in `FileIndexer.index_directory`: a file
entry goes through `_process_file` and, when a record was produced, through
`_save_to_db`; a directory entry goes through `_process_directory`. -/
def stepEntry (fmts : List String) (now : Nat) (db : DB) (e : Entry) : DB :=
  match e with
  | .file f =>
    match process_file fmts now f with
    | none => db
    | some info => save_to_db db info now
  | .dir d => process_directory db d now

/-- `FileIndexer.index_directory`: fold the traversal entries (in `rglob`
order) over the catalog. The per-run wall clock is abstracted to a single
`now` parameter; the processed/skipped/failed counters are reporting only
and are not part of the persisted state. -/
def index_directory (fmts : List String) (now : Nat) (db : DB) (es : List Entry) : DB :=
  es.foldl (stepEntry fmts now) db

/-! ## Directory annotation operations -/

/-- `SELECT id FROM directories WHERE dir_path = ?` followed by
`fetchone()`: the first (under the unique-path invariant, only) row with
the given path. -/
def findDir (db : DB) (p : String) : Option DirRow :=
  db.directories.find? (fun r => decide (r.dir_path = p))

/-- `SELECT MAX(version) FROM directory_docs WHERE directory_id = ?`, with
the Python `or 0` turning an empty result into 0. -/
def maxDocVersion (docs : List DocRow) (did : Nat) : Nat :=
  ((docs.filter (fun r => decide (r.directory_id = did))).map (·.version)).foldr max 0

/-- The `UPDATE directory_docs SET is_current = FALSE WHERE directory_id = ?`
statement applied to one row. -/
def clearCurrentFor (did : Nat) (r : DocRow) : DocRow :=
  if r.directory_id = did then { r with is_current := false } else r

/-- The `UPDATE directories SET last_documented_at = ? WHERE id = ?`
statement applied to one row. -/
def stampDirFor (did : Nat) (t : Nat) (r : DirRow) : DirRow :=
  if r.id = did then { r with last_documented_at := some t } else r

/-- `FileIndexer.add_directory_documentation`: look up the directory
(returning `False` when absent), then in one transaction clear the current
flag on all of that directory's versions, insert version `max + 1` as
current, and stamp the directory's `last_documented_at`. The three Boolean
flags model an exception raised by the corresponding SQL statement: any
exception before the commit rolls the connection back, so the catalog is
returned unchanged and the call returns `False`. -/
def add_directory_documentation (db : DB) (dir_path title description purpose guidelines created_by : String)
    (now : Nat) (failClear failInsert failStamp : Bool) : Bool × DB :=
  match findDir db dir_path with
  | none => (false, db)
  | some d =>
    if failClear then (false, db) else
    let docs1 := db.docs.map (clearCurrentFor d.id)
    if failInsert then (false, db) else
    let nextVersion := maxDocVersion db.docs d.id + 1
    let newDoc : DocRow :=
      { directory_id := d.id
        version := nextVersion
        title := title
        description := description
        purpose := purpose
        guidelines := guidelines
        created_at := now
        created_by := created_by
        is_current := true }
    let docs2 := docs1 ++ [newDoc]
    if failStamp then (false, db) else
    let dirs2 := db.directories.map (stampDirFor d.id now)
    (true, { db with docs := docs2, directories := dirs2 })

/-- `FileIndexer.add_directory_tags`: look up the directory (returning
`False` when absent), then `INSERT OR IGNORE` each tag — the insert is
skipped when a row with the same `(directory_id, tag_name)` already exists
(the table's UNIQUE constraint), and the call returns `True`. -/
def add_directory_tags (db : DB) (dir_path : String) (tags : List String)
    (now : Nat) (created_by : String) : Bool × DB :=
  match findDir db dir_path with
  | none => (false, db)
  | some d =>
    let tags' := tags.foldl (fun acc tag =>
      if acc.any (fun r => decide (r.directory_id = d.id ∧ r.tag_name = tag)) then acc
      else acc ++ [{ directory_id := d.id, tag_name := tag,
                     created_at := now, created_by := created_by }]) db.tags
    (true, { db with tags := tags' })

/-- `FileIndexer.add_directory_relation`: `INSERT INTO directory_relations
... SELECT d1.id, d2.id, ... FROM directories d1, directories d2 WHERE
d1.dir_path = ? AND d2.dir_path = ?` — one inserted row per pair of the
cross join matching both paths (zero rows when either endpoint is
missing), and the call returns `True`. -/
def add_directory_relation (db : DB) (source_path target_path relation_type description : String)
    (now : Nat) : Bool × DB :=
  let newRows := db.directories.flatMap (fun d1 =>
    db.directories.filterMap (fun d2 =>
      if d1.dir_path = source_path ∧ d2.dir_path = target_path then
        some { source_dir_id := d1.id, target_dir_id := d2.id,
               relation_type := relation_type, description := description,
               created_at := now }
      else none))
  (true, { db with relations := db.relations ++ newRows })

/-! ## Derived queries used in the statements -/

/-- The `file_path` column of the `files` table. -/
def filePathsOf (db : DB) : List String :=
  db.files.map (·.file_path)

/-- The `dir_path` column of the `directories` table. -/
def dirPathsOf (db : DB) : List String :=
  db.directories.map (·.dir_path)

/-- The stored checksum of the row with a given path: `none` when no row
has the path, `some c` when the (unique) row stores checksum `c`. -/
def checksumOfPath (db : DB) (p : String) : Option (Option String) :=
  (db.files.find? (fun r => decide (r.file_path = p))).map (·.checksum)

/-- The `directory_docs` rows of one directory. -/
def docsFor (db : DB) (did : Nat) : List DocRow :=
  db.docs.filter (fun r => decide (r.directory_id = did))

/-- The `directory_docs` rows of one directory that carry the current
flag. -/
def currentDocsFor (db : DB) (did : Nat) : List DocRow :=
  db.docs.filter (fun r => decide (r.directory_id = did ∧ r.is_current = true))

/-- How many `directory_tags` rows exist for one `(directory, tag)` pair. -/
def tagCount (db : DB) (did : Nat) (tag : String) : Nat :=
  (db.tags.filter (fun r => decide (r.directory_id = did ∧ r.tag_name = tag))).length

/-- Iterated `add_directory_documentation` on one directory: call `n`
times with the same fields, call `k` (0-based) at clock `ts k`, no
statement failures. -/
def docIter (db : DB) (p title description purpose guidelines created_by : String)
    (ts : Nat → Nat) : Nat → DB
  | 0 => db
  | n + 1 =>
    (add_directory_documentation (docIter db p title description purpose guidelines created_by ts n)
      p title description purpose guidelines created_by (ts n) false false false).2

/-- Iterated ingestion runs over the same traversal: `k` successive
executions of `index_directory`, run `k` (0-based) at clock `ts k`. -/
def runIter (fmts : List String) (ts : Nat → Nat) (es : List Entry) (db : DB) : Nat → DB
  | 0 => db
  | k + 1 => index_directory fmts (ts k) (runIter fmts ts es db k) es

/-! ## Concrete sample inputs used by witnesses and counterexamples -/

/-- A convertible `.txt` file (eligible extension, all reads succeed). -/
def fsA : FSFile := ⟨"r/a.txt", some ⟨10, 1, 2⟩, some "ca", .ok "A"⟩

/-- A `.bin` file whose extension is not in the enabled set. -/
def fsB : FSFile := ⟨"r/b.bin", some ⟨20, 1, 2⟩, some "cb", .ok "B"⟩

/-- A two-file traversal: the eligible file first, the ineligible one
second. -/
def esAB : List Entry := [.file fsA, .file fsB]

/-- The catalog after indexing `esAB` twice from an empty database. -/
def dbTwoRuns : DB :=
  index_directory ["txt"] 7 (index_directory ["txt"] 3 emptyDB esAB) esAB

/-- A `file_info` record that reached `processed` status. -/
def infoProcessed : FileInfo :=
  ⟨"r/a.txt", "a.txt", "txt", 10, 1, 2, 3, some "ca", "processed", some "A", none⟩

/-- A one-directory catalog (path `/data`, id 1), used to exercise the
annotation operations. -/
def dbOneDir : DB :=
  { emptyDB with directories := [⟨1, "/data", "data", "/", 2, 0, 0, 0, none⟩] }

/-! ## Traversal summaries used to state run-level properties -/

/-- Whether one traversal entry writes (or rewrites) the `files` row of
path `p`: a file entry with that path whose `os.stat` succeeded. -/
def touchesFile (e : Entry) (p : String) : Bool :=
  match e with
  | .file f => decide (f.path = p) && f.stat.isSome
  | .dir _ => false

/-- Whether one traversal entry writes (or rewrites) the `directories`
row of path `p`. -/
def touchesDir (e : Entry) (p : String) : Bool :=
  match e with
  | .file _ => false
  | .dir d => decide (d.path = p) && d.stat.isSome

/-- The checksum a single traversal entry would store for path `p`
(`none` when the entry does not write that path). -/
def entryCk (e : Entry) (p : String) : Option (Option String) :=
  match e with
  | .file f => if f.path = p ∧ f.stat.isSome then some f.checksum else none
  | .dir _ => none

/-- The checksum the whole traversal stores for path `p`: the outcome of
the last entry writing that path (`none` when no entry does). -/
def esCk : List Entry → String → Option (Option String)
  | [], _ => none
  | e :: es, p => (esCk es p).orElse (fun _ => entryCk e p)

/-! ## Helper lemmas about replace-by-key lists -/

theorem find?_key_replace {α β : Type} [DecidableEq β] (key : α → β) (p : β)
    (l : List α) (x : α) (hx : key x = p) :
    (l.filter (fun r => decide (key r ≠ p)) ++ [x]).find?
      (fun r => decide (key r = p)) = some x := by
  induction l with
  | nil => simp [List.find?_cons, hx]
  | cons a l ih =>
    by_cases h : key a = p
    · rw [List.filter_cons_of_neg (by simp [h])]
      exact ih
    · rw [List.filter_cons_of_pos (by simp [h]), List.cons_append,
        List.find?_cons_of_neg _ (by simp [h])]
      exact ih

theorem find?_key_replace_other {α β : Type} [DecidableEq β] (key : α → β) (p q : β)
    (l : List α) (x : α) (hx : key x = p) (hq : q ≠ p) :
    (l.filter (fun r => decide (key r ≠ p)) ++ [x]).find?
      (fun r => decide (key r = q)) = l.find? (fun r => decide (key r = q)) := by
  have hxq : ¬(key x = q) := by
    rw [hx]
    exact fun h2 => hq h2.symm
  induction l with
  | nil => simp [List.find?_cons, hxq]
  | cons a l ih =>
    by_cases h : key a = p
    · have haq : ¬(key a = q) := by
        rw [h]
        exact fun h2 => hq h2.symm
      rw [List.filter_cons_of_neg (by simp [h]), List.find?_cons_of_neg _ (by simp [haq])]
      exact ih
    · by_cases h2 : key a = q
      · rw [List.filter_cons_of_pos (by simp [h]), List.cons_append,
          List.find?_cons_of_pos _ (by simp [h2]), List.find?_cons_of_pos _ (by simp [h2])]
      · rw [List.filter_cons_of_pos (by simp [h]), List.cons_append,
          List.find?_cons_of_neg _ (by simp [h2]), List.find?_cons_of_neg _ (by simp [h2])]
        exact ih

theorem map_key_filter_ne {α β : Type} [DecidableEq β] (key : α → β) (p : β) (l : List α) :
    (l.filter (fun r => decide (key r ≠ p))).map key
      = (l.map key).filter (fun q => decide (q ≠ p)) := by
  induction l with
  | nil => simp
  | cons a l ih =>
    by_cases h : key a = p
    · rw [List.filter_cons_of_neg (by simp [h]), List.map_cons,
        List.filter_cons_of_neg (by simp [h]), ih]
    · rw [List.filter_cons_of_pos (by simp [h]), List.map_cons, List.map_cons,
        List.filter_cons_of_pos (by simp [h]), ih]

/-! ## Claim theorems -/

/-- C7: a file whose extension (lower-cased, leading dot stripped) is
absent from the enabled-format set is always recorded as `skipped`, with
null extracted text and an error detail naming the extension. -/
theorem C7_unsupported_extension_skipped (fmts : List String) (now : Nat) (f : FSFile)
    (st : StatInfo) (hst : f.stat = some st) (hext : fileExtOf f.path ∉ fmts) :
    ∃ info, process_file fmts now f = some info ∧
      info.processing_status = "skipped" ∧
      info.markdown_content = none ∧
      info.error_message = some ("Unsupported file format: ." ++ fileExtOf f.path) := by
  simp [process_file, hst, hext]

/-- Witness for C7 at a concrete `.qqq` file against the `["txt"]` set. -/
theorem C7_unsupported_extension_skipped_witness :
    ∃ info, process_file ["txt"] 5 ⟨"d/x.qqq", some ⟨1, 2, 3⟩, some "c", .ok "t"⟩ = some info ∧
      info.processing_status = "skipped" ∧
      info.markdown_content = none ∧
      info.error_message
        = some ("Unsupported file format: ."
            ++ fileExtOf (FSFile.path ⟨"d/x.qqq", some ⟨1, 2, 3⟩, some "c", .ok "t"⟩)) :=
  C7_unsupported_extension_skipped ["txt"] 5 _ ⟨1, 2, 3⟩ rfl (by decide)

/-! ## Shared lemmas about `process_file`, `save_to_db` and `stepEntry` -/

/-- When `os.stat` succeeds, `_process_file` always produces a record
carrying the stat metadata, the computed extension and name, and whatever
the checksum read yielded, whatever the conversion branch taken. -/
theorem process_file_some_of_stat (fmts : List String) (now : Nat) (f : FSFile)
    (st : StatInfo) (h1 : f.stat = some st) :
    ∃ info, process_file fmts now f = some info ∧
      info.file_path = f.path ∧ info.checksum = f.checksum ∧
      info.file_size = st.size ∧ info.created_at = st.ctime ∧
      info.modified_at = st.mtime ∧ info.file_name = pathName f.path ∧
      info.file_extension = fileExtOf f.path := by
  simp only [process_file, h1, calculate_checksum]
  by_cases hext : fileExtOf f.path ∈ fmts
  · simp only [if_pos hext]
    cases f.conv <;> exact ⟨_, rfl, rfl, rfl, rfl, rfl, rfl, rfl, rfl⟩
  · simp only [if_neg hext]
    exact ⟨_, rfl, rfl, rfl, rfl, rfl, rfl, rfl, rfl⟩

/-- After `_save_to_db`, looking the record's path up in the `files` table
finds exactly the freshly written row, which carries the record's fields. -/
theorem save_to_db_find_self (db : DB) (info : FileInfo) (now : Nat) :
    ∃ r, (save_to_db db info now).files.find?
        (fun x => decide (x.file_path = info.file_path)) = some r ∧
      r.file_path = info.file_path ∧ r.checksum = info.checksum ∧
      r.file_size = info.file_size ∧ r.created_at = info.created_at ∧
      r.modified_at = info.modified_at ∧ r.file_name = info.file_name ∧
      r.file_extension = info.file_extension ∧
      r.processing_status = info.processing_status ∧
      r.markdown_content = info.markdown_content := by
  refine ⟨{ id := maxRowid ((db.files.filter
              (fun r => decide (r.file_path ≠ info.file_path))).map (·.id)) + 1
            file_path := info.file_path
            file_name := info.file_name
            file_extension := info.file_extension
            file_size := info.file_size
            created_at := info.created_at
            modified_at := info.modified_at
            indexed_at := info.indexed_at
            checksum := info.checksum
            markdown_content := info.markdown_content
            processing_status := info.processing_status
            error_message := info.error_message },
    ?_, rfl, rfl, rfl, rfl, rfl, rfl, rfl, rfl, rfl⟩
  simp only [save_to_db, insertOrReplaceFile]
  exact find?_key_replace (fun r : FileRow => r.file_path) info.file_path db.files _ rfl

/-- `index_directory` over a single-entry traversal is one `stepEntry`. -/
theorem index_directory_single (fmts : List String) (now : Nat) (db : DB) (e : Entry) :
    index_directory fmts now db [e] = stepEntry fmts now db e := rfl

/-- When `_process_file` produced a record, the loop body is exactly
`_save_to_db` of that record. -/
theorem stepEntry_of_process (fmts : List String) (now : Nat) (db : DB) (f : FSFile)
    (info : FileInfo) (hpf : process_file fmts now f = some info) :
    stepEntry fmts now db (.file f) = save_to_db db info now := by
  simp [stepEntry, hpf]

/-- A file that reaches `processed` status appends exactly one `pending`
`processing_queue` row when stepped. -/
theorem stepEntry_processed_queue (fmts : List String) (now : Nat) (db : DB) (f : FSFile)
    (st : StatInfo) (text : String) (h1 : f.stat = some st)
    (h3 : fileExtOf f.path ∈ fmts) (h4 : f.conv = .ok text) :
    ∃ fid, (stepEntry fmts now db (.file f)).queue
      = db.queue ++ [⟨fid, "pending", now⟩] := by
  refine ⟨maxRowid ((db.files.filter
      (fun r => decide (r.file_path ≠ f.path))).map (·.id)) + 1, ?_⟩
  simp [stepEntry, process_file, h1, h3, h4, save_to_db, insertOrReplaceFile]

/-- C10: when `os.stat` succeeds but the checksum read fails, an enabled
extension with a successful conversion still yields a `processed` record
with a null checksum, and the stored row is a `processed` row with no
checksum. -/
theorem C10_processed_with_null_checksum (fmts : List String) (now : Nat) (f : FSFile)
    (st : StatInfo) (text : String) (db : DB)
    (h1 : f.stat = some st) (h2 : f.checksum = none)
    (h3 : fileExtOf f.path ∈ fmts) (h4 : f.conv = .ok text) :
    ∃ info, process_file fmts now f = some info ∧
      info.processing_status = "processed" ∧ info.checksum = none ∧
      info.markdown_content = some text ∧
      ∃ r, (stepEntry fmts now db (.file f)).files.find?
          (fun x => decide (x.file_path = f.path)) = some r ∧
        r.processing_status = "processed" ∧ r.checksum = none := by
  have hpf : process_file fmts now f
      = some { file_path := f.path
               file_name := pathName f.path
               file_extension := fileExtOf f.path
               file_size := st.size
               created_at := st.ctime
               modified_at := st.mtime
               indexed_at := now
               checksum := none
               processing_status := "processed"
               markdown_content := some text
               error_message := none } := by
    simp [process_file, h1, h2, h3, h4, calculate_checksum]
  refine ⟨_, hpf, rfl, rfl, rfl, ?_⟩
  rw [stepEntry_of_process fmts now db f _ hpf]
  obtain ⟨r, hr, _hp, hck, _, _, _, _, _, hst2, _⟩ :=
    save_to_db_find_self db
      { file_path := f.path
        file_name := pathName f.path
        file_extension := fileExtOf f.path
        file_size := st.size
        created_at := st.ctime
        modified_at := st.mtime
        indexed_at := now
        checksum := none
        processing_status := "processed"
        markdown_content := some text
        error_message := none } now
  refine ⟨r, hr, ?_, ?_⟩
  · exact hst2
  · exact hck

/-- Witness for C10: a readable-stat, unreadable-content `.txt` file that
converts successfully is stored as `processed` with a null checksum. -/
theorem C10_processed_with_null_checksum_witness :
    ∃ info, process_file ["txt"] 4 ⟨"r/n.txt", some ⟨9, 1, 2⟩, none, .ok "body"⟩ = some info ∧
      info.processing_status = "processed" ∧ info.checksum = none ∧
      info.markdown_content = some "body" ∧
      ∃ r, (stepEntry ["txt"] 4 emptyDB (.file ⟨"r/n.txt", some ⟨9, 1, 2⟩, none, .ok "body"⟩)).files.find?
          (fun x => decide (x.file_path = FSFile.path ⟨"r/n.txt", some ⟨9, 1, 2⟩, none, .ok "body"⟩)) = some r ∧
        r.processing_status = "processed" ∧ r.checksum = none :=
  C10_processed_with_null_checksum ["txt"] 4 _ ⟨9, 1, 2⟩ "body" emptyDB rfl rfl (by decide) rfl

/-- C3 counterexample: for a file whose `os.stat` raises, `_process_file`
returns `None`, so `index_directory`'s loop saves nothing — the catalog is
left unchanged and contains no row (in particular no `failed` row) for the
file, contrary to the claim that the file is still recorded with a
`failed` record. -/
theorem C3_stat_failure_counterexample :
    process_file ["txt"] 0 ⟨"r/c.txt", none, none, .ok "T"⟩ = none ∧
    stepEntry ["txt"] 0 emptyDB (.file ⟨"r/c.txt", none, none, .ok "T"⟩) = emptyDB ∧
    (stepEntry ["txt"] 0 emptyDB (.file ⟨"r/c.txt", none, none, .ok "T"⟩)).files = [] :=
  ⟨rfl, rfl, rfl⟩

/-- C3 (amended): a file whose `os.stat` raises is not recorded at all
(no catalog change, no row of any status), while a failure of only the
checksum read still records the file with the metadata obtained from the
successful stat and a null checksum. -/
theorem C3_amended_stat_failure_unrecorded (fmts : List String) (now : Nat) (db : DB)
    (f : FSFile) :
    (f.stat = none → process_file fmts now f = none ∧
      stepEntry fmts now db (.file f) = db) ∧
    (∀ st, f.stat = some st → f.checksum = none →
      ∃ r, (stepEntry fmts now db (.file f)).files.find?
          (fun x => decide (x.file_path = f.path)) = some r ∧
        r.checksum = none ∧ r.file_size = st.size ∧ r.created_at = st.ctime ∧
        r.modified_at = st.mtime ∧ r.file_name = pathName f.path ∧
        r.file_extension = fileExtOf f.path) := by
  constructor
  · intro hn
    have hpf : process_file fmts now f = none := by
      simp [process_file, hn]
    exact ⟨hpf, by simp [stepEntry, hpf]⟩
  · intro st hst hck
    obtain ⟨info, hpf, hp, hc, hsz, hct, hmt, hnm, hex⟩ :=
      process_file_some_of_stat fmts now f st hst
    rw [stepEntry_of_process fmts now db f info hpf]
    obtain ⟨r, hr, _, rck, rsz, rct, rmt, rnm, rex, _, _⟩ := save_to_db_find_self db info now
    rw [hp] at hr
    exact ⟨r, hr, by rw [rck, hc, hck], by rw [rsz, hsz], by rw [rct, hct],
      by rw [rmt, hmt], by rw [rnm, hnm], by rw [rex, hex]⟩

/-- Witness for the amended C3 at a concrete file value, covering the
stat-failure branch. -/
theorem C3_amended_stat_failure_unrecorded_witness :
    (FSFile.stat ⟨"r/c.txt", none, none, .ok "T"⟩ = none →
      process_file ["txt"] 0 ⟨"r/c.txt", none, none, .ok "T"⟩ = none ∧
      stepEntry ["txt"] 0 emptyDB (.file ⟨"r/c.txt", none, none, .ok "T"⟩) = emptyDB) ∧
    (∀ st, FSFile.stat ⟨"r/c.txt", none, none, .ok "T"⟩ = some st →
      FSFile.checksum ⟨"r/c.txt", none, none, .ok "T"⟩ = none →
      ∃ r, (stepEntry ["txt"] 0 emptyDB (.file ⟨"r/c.txt", none, none, .ok "T"⟩)).files.find?
          (fun x => decide (x.file_path = FSFile.path ⟨"r/c.txt", none, none, .ok "T"⟩)) = some r ∧
        r.checksum = none ∧ r.file_size = st.size ∧ r.created_at = st.ctime ∧
        r.modified_at = st.mtime ∧
        r.file_name = pathName (FSFile.path ⟨"r/c.txt", none, none, .ok "T"⟩) ∧
        r.file_extension = fileExtOf (FSFile.path ⟨"r/c.txt", none, none, .ok "T"⟩)) :=
  C3_amended_stat_failure_unrecorded ["txt"] 0 emptyDB ⟨"r/c.txt", none, none, .ok "T"⟩

/-- C9: saving a `processed` record always inserts a `pending`
`processing_queue` row with no duplicate check, so `k` successive runs
over the same unchanged eligible file leave `k` queue rows, not one. -/
theorem C9_queue_grows_per_run (fmts : List String) (ts : Nat → Nat) (f : FSFile)
    (st : StatInfo) (text : String) (db : DB)
    (h1 : f.stat = some st) (h3 : fileExtOf f.path ∈ fmts) (h4 : f.conv = .ok text)
    (k : Nat) :
    (runIter fmts ts [.file f] db k).queue.length = db.queue.length + k ∧
    ∀ q ∈ (runIter fmts ts [.file f] db k).queue, q ∈ db.queue ∨ q.status = "pending" := by
  induction k with
  | zero => exact ⟨rfl, fun q hq => Or.inl hq⟩
  | succ k ih =>
    obtain ⟨fid, hq⟩ := stepEntry_processed_queue fmts (ts k)
      (runIter fmts ts [.file f] db k) f st text h1 h3 h4
    have hrun : runIter fmts ts [.file f] db (k + 1)
        = stepEntry fmts (ts k) (runIter fmts ts [.file f] db k) (.file f) := rfl
    constructor
    · rw [hrun, hq, List.length_append, ih.1]
      simp [Nat.add_assoc]
    · intro q hqm
      rw [hrun, hq] at hqm
      rcases List.mem_append.mp hqm with h | h
      · exact ih.2 q h
      · right
        rw [List.mem_singleton.mp h]
    
/-- Witness for C9: three runs over the eligible file `fsA` from the empty
catalog leave three queue rows, all `pending`. -/
theorem C9_queue_grows_per_run_witness :
    (runIter ["txt"] (fun k => k) [.file fsA] emptyDB 3).queue.length
        = emptyDB.queue.length + 3 ∧
    ∀ q ∈ (runIter ["txt"] (fun k => k) [.file fsA] emptyDB 3).queue,
      q ∈ emptyDB.queue ∨ q.status = "pending" :=
  C9_queue_grows_per_run ["txt"] (fun k => k) fsA ⟨10, 1, 2⟩ "A" emptyDB rfl (by decide) rfl 3

/-- C1 counterexample: index the two-file traversal `esAB` twice from the
empty catalog. The second run's `INSERT OR REPLACE` of `r/a.txt` deletes
its old `files` row (id 1) and re-inserts it with the fresh rowid 3, so
the first run's queue row still carries `file_id = 1`, which no current
`files` row has: a reachable state violates the invariant. -/
theorem C1_queue_reference_counterexample :
    ∃ q ∈ dbTwoRuns.queue, ∀ fr ∈ dbTwoRuns.files, fr.id ≠ q.file_id := by decide

/-- C1 (amended): referential integrity holds at insertion time only —
every queue row added by a save references a row present in the `files`
table immediately after that save; rows inserted by earlier saves may be
orphaned later, because re-indexing a path replaces its `files` row under
a fresh id. -/
theorem C1_amended_fresh_queue_row_resolves (db : DB) (info : FileInfo) (now : Nat)
    (q : QueueRow) (hq : q ∈ (save_to_db db info now).queue) :
    q ∈ db.queue ∨ ∃ fr ∈ (save_to_db db info now).files, fr.id = q.file_id := by
  by_cases h : info.processing_status = "processed"
  · simp only [save_to_db, h, if_pos, insertOrReplaceFile] at hq ⊢
    rcases List.mem_append.mp hq with h1 | h1
    · exact Or.inl h1
    · right
      rw [List.mem_singleton.mp h1]
      exact ⟨_, List.mem_append_right _ (List.mem_singleton_self _), rfl⟩
  · simp only [save_to_db, h, if_neg, insertOrReplaceFile] at hq
    exact Or.inl hq

/-- Witness for the amended C1: the queue row written when saving a
`processed` record into the empty catalog references the file row that
save created. -/
theorem C1_amended_fresh_queue_row_resolves_witness :
    ((⟨1, "pending", 3⟩ : QueueRow) ∈ emptyDB.queue ∨
      ∃ fr ∈ (save_to_db emptyDB infoProcessed 3).files,
        fr.id = QueueRow.file_id ⟨1, "pending", 3⟩) :=
  C1_amended_fresh_queue_row_resolves emptyDB infoProcessed 3 ⟨1, "pending", 3⟩ (by decide)

/-- The `INSERT OR IGNORE` membership test of `add_directory_tags` is
false exactly when no row with the pair exists. -/
theorem tags_any_eq_false_iff (l : List TagRow) (did : Nat) (g : String) :
    l.any (fun r => decide (r.directory_id = did ∧ r.tag_name = g)) = false ↔
      (l.filter (fun r => decide (r.directory_id = did ∧ r.tag_name = g))).length = 0 := by
  rw [List.length_eq_zero, List.filter_eq_nil_iff, ← Bool.not_eq_true, List.any_eq_true]
  push_neg
  constructor
  · intro h a ha
    simpa using h a ha
  · intro h a ha
    simpa using h a ha

/-- C5: attaching the same tag twice to a cataloged directory — within
one call or across two calls — leaves exactly one `directory_tags` row for
the pair, and the duplicate attach still returns success. -/
theorem C5_duplicate_tag_single_row (db : DB) (p g : String) (t1 t2 : Nat) (cb : String)
    (d : DirRow) (hd : findDir db p = some d) (hcnt : tagCount db d.id g ≤ 1) :
    (add_directory_tags db p [g] t1 cb).1 = true ∧
    tagCount (add_directory_tags db p [g] t1 cb).2 d.id g = 1 ∧
    add_directory_tags (add_directory_tags db p [g] t1 cb).2 p [g] t2 cb
      = (true, (add_directory_tags db p [g] t1 cb).2) ∧
    tagCount (add_directory_tags db p [g, g] t1 cb).2 d.id g = 1 := by
  by_cases hany : db.tags.any (fun r => decide (r.directory_id = d.id ∧ r.tag_name = g)) = true
  · have hone : tagCount db d.id g = 1 := by
      rcases Nat.lt_or_ge 0 (tagCount db d.id g) with h | h
      · omega
      · exfalso
        have h0 : tagCount db d.id g = 0 := by omega
        rw [tagCount, ← tags_any_eq_false_iff] at h0
        rw [h0] at hany
        exact Bool.false_ne_true hany
    have h1 : add_directory_tags db p [g] t1 cb = (true, db) := by
      simp only [add_directory_tags, hd, List.foldl, hany, if_pos]
    have h2 : add_directory_tags db p [g] t2 cb = (true, db) := by
      simp only [add_directory_tags, hd, List.foldl, hany, if_pos]
    have h3 : add_directory_tags db p [g, g] t1 cb = (true, db) := by
      simp only [add_directory_tags, hd, List.foldl, hany, if_pos]
    rw [h1, h3]
    exact ⟨rfl, hone, by rw [h2], hone⟩
  · have hany' : db.tags.any (fun r => decide (r.directory_id = d.id ∧ r.tag_name = g)) = false :=
      Bool.eq_false_iff.mpr hany
    have h0 : tagCount db d.id g = 0 := by
      rw [tagCount, ← tags_any_eq_false_iff]
      exact hany'
    have hd2 : List.find? (fun r => decide (r.dir_path = p)) db.directories = some d := hd
    have h1 : add_directory_tags db p [g] t1 cb
        = (true, { db with tags := db.tags ++
            [({ directory_id := d.id, tag_name := g, created_at := t1,
                created_by := cb } : TagRow)] }) := by
      simp only [add_directory_tags, hd, List.foldl, hany', Bool.false_eq_true, if_neg,
        not_false_iff]
    have hcnt1 : tagCount { db with tags := db.tags ++
        [({ directory_id := d.id, tag_name := g, created_at := t1,
            created_by := cb } : TagRow)] } d.id g = 1 := by
      rw [tagCount] at h0 ⊢
      simp only [List.filter_append, List.length_append, h0]
      simp
    have hanyapp : (db.tags ++
        [({ directory_id := d.id, tag_name := g, created_at := t1,
            created_by := cb } : TagRow)]).any
          (fun r => decide (r.directory_id = d.id ∧ r.tag_name = g)) = true := by
      rw [List.any_append]
      simp
    have h2 : add_directory_tags { db with tags := db.tags ++
          [({ directory_id := d.id, tag_name := g, created_at := t1,
              created_by := cb } : TagRow)] } p [g] t2 cb
        = (true, { db with tags := db.tags ++
            [({ directory_id := d.id, tag_name := g, created_at := t1,
                created_by := cb } : TagRow)] }) := by
      simp only [add_directory_tags, findDir, hd2, List.foldl, hanyapp, if_pos]
    have h3 : add_directory_tags db p [g, g] t1 cb
        = (true, { db with tags := db.tags ++
            [({ directory_id := d.id, tag_name := g, created_at := t1,
                created_by := cb } : TagRow)] }) := by
      simp only [add_directory_tags, hd, List.foldl, hany', Bool.false_eq_true, if_neg,
        not_false_iff, hanyapp, if_pos]
    rw [h1, h3]
    exact ⟨rfl, hcnt1, by rw [h2], hcnt1⟩

/-- Witness for C5 on the one-directory catalog: attaching tag `x` to
`/data` twice leaves exactly one row and keeps returning success. -/
theorem C5_duplicate_tag_single_row_witness :
    (add_directory_tags dbOneDir "/data" ["x"] 1 "system").1 = true ∧
    tagCount (add_directory_tags dbOneDir "/data" ["x"] 1 "system").2
      (DirRow.id ⟨1, "/data", "data", "/", 2, 0, 0, 0, none⟩) "x" = 1 ∧
    add_directory_tags (add_directory_tags dbOneDir "/data" ["x"] 1 "system").2
        "/data" ["x"] 2 "system"
      = (true, (add_directory_tags dbOneDir "/data" ["x"] 1 "system").2) ∧
    tagCount (add_directory_tags dbOneDir "/data" ["x", "x"] 1 "system").2
      (DirRow.id ⟨1, "/data", "data", "/", 2, 0, 0, 0, none⟩) "x" = 1 :=
  C5_duplicate_tag_single_row dbOneDir "/data" "x" 1 2 "system" _ (by decide) (by decide)

/-- C6: declaring a relation whose source or target path has no cataloged
directory inserts zero `directory_relations` rows and still reports
success (a soft no-op, not an error). -/
theorem C6_relation_missing_endpoint_noop (db : DB) (sp tp rt ds : String) (now : Nat)
    (h : findDir db sp = none ∨ findDir db tp = none) :
    add_directory_relation db sp tp rt ds now = (true, db) := by
  have hnil : db.directories.flatMap (fun d1 =>
      db.directories.filterMap (fun d2 =>
        if d1.dir_path = sp ∧ d2.dir_path = tp then
          some ({ source_dir_id := d1.id, target_dir_id := d2.id,
                  relation_type := rt, description := ds, created_at := now } : RelRow)
        else none)) = [] := by
    rw [List.flatMap_eq_nil_iff]
    intro d1 hd1
    rw [List.filterMap_eq_nil_iff]
    intro d2 hd2
    rcases h with h | h
    · have hs : ¬(d1.dir_path = sp) := by
        have := List.find?_eq_none.mp h d1 hd1
        simpa using this
      simp [hs]
    · have ht : ¬(d2.dir_path = tp) := by
        have := List.find?_eq_none.mp h d2 hd2
        simpa using this
      simp [ht]
  simp only [add_directory_relation, hnil, List.append_nil]

/-- Witness for C6: relating `/data` to the never-indexed `/nope` in the
one-directory catalog changes nothing and returns success. -/
theorem C6_relation_missing_endpoint_noop_witness :
    add_directory_relation dbOneDir "/data" "/nope" "depends_on" "d" 5 = (true, dbOneDir) :=
  C6_relation_missing_endpoint_noop dbOneDir "/data" "/nope" "depends_on" "d" 5
    (Or.inr (by decide))

/-! ## Lemmas about the documentation-versioning transaction -/

theorem clearCurrentFor_directory_id (did : Nat) (r : DocRow) :
    (clearCurrentFor did r).directory_id = r.directory_id := by
  unfold clearCurrentFor
  split <;> rfl

theorem clearCurrentFor_version (did : Nat) (r : DocRow) :
    (clearCurrentFor did r).version = r.version := by
  unfold clearCurrentFor
  split <;> rfl

theorem stampDirFor_dir_path (did t : Nat) (r : DirRow) :
    (stampDirFor did t r).dir_path = r.dir_path := by
  unfold stampDirFor
  split <;> rfl

theorem foldr_max_init (l : List Nat) (b : Nat) :
    l.foldr max b = max b (l.foldr max 0) := by
  induction l generalizing b with
  | nil => simp
  | cons a l ih =>
    rw [List.foldr_cons, List.foldr_cons, ih]
    exact max_left_comm a b _

theorem foldr_max_range' (k : Nat) : (List.range' 1 k).foldr max 0 = k := by
  induction k with
  | zero => rfl
  | succ k ih =>
    rw [List.range'_1_concat, List.foldr_append, List.foldr_cons, List.foldr_nil,
      foldr_max_init, ih]
    omega

theorem filter_did_map_clear (docs : List DocRow) (did j : Nat) :
    (docs.map (clearCurrentFor did)).filter (fun r => decide (r.directory_id = j))
      = (docs.filter (fun r => decide (r.directory_id = j))).map (clearCurrentFor did) := by
  induction docs with
  | nil => rfl
  | cons a l ih =>
    by_cases h : a.directory_id = j
    · rw [List.map_cons, List.filter_cons_of_pos (by simp [clearCurrentFor_directory_id, h]),
        List.filter_cons_of_pos (by simp [h]), List.map_cons, ih]
    · rw [List.map_cons, List.filter_cons_of_neg (by simp [clearCurrentFor_directory_id, h]),
        List.filter_cons_of_neg (by simp [h]), ih]

theorem map_version_map_clear (docs : List DocRow) (did : Nat) :
    (docs.map (clearCurrentFor did)).map (·.version) = docs.map (·.version) := by
  rw [List.map_map]
  exact List.map_congr_left (fun r _ => clearCurrentFor_version did r)

theorem currents_map_clear (docs : List DocRow) (did : Nat) :
    (docs.map (clearCurrentFor did)).filter
      (fun r => decide (r.directory_id = did ∧ r.is_current = true)) = [] := by
  induction docs with
  | nil => rfl
  | cons a l ih =>
    by_cases h : a.directory_id = did
    · rw [List.map_cons, List.filter_cons_of_neg (by simp [clearCurrentFor, h]), ih]
    · rw [List.map_cons, List.filter_cons_of_neg (by simp [clearCurrentFor, h]), ih]

/-- With no statement failing, `add_directory_documentation` on a found
directory returns `True` and commits the whole four-step transaction. -/
theorem add_doc_success (db : DB) (p ti de pu gu cb : String) (t : Nat) (d : DirRow)
    (hd : findDir db p = some d) :
    add_directory_documentation db p ti de pu gu cb t false false false
      = (true, { db with
          docs := db.docs.map (clearCurrentFor d.id)
            ++ [⟨d.id, maxDocVersion db.docs d.id + 1, ti, de, pu, gu, t, cb, true⟩]
          directories := db.directories.map (stampDirFor d.id t) }) := by
  unfold add_directory_documentation
  rw [hd]
  rfl

/-- Invariant of iterated documentation calls on a cataloged directory
with no prior documentation: after `k` calls the directory is still found
under the same id (stamped with the last call's clock once `k ≥ 1`), its
versions are exactly `1..k`, and exactly the last version is current. -/
theorem docIter_invariant (db : DB) (p ti de pu gu cb : String) (ts : Nat → Nat) (d : DirRow)
    (hd : findDir db p = some d) (h0 : docsFor db d.id = []) (k : Nat) :
    (∃ d', findDir (docIter db p ti de pu gu cb ts k) p = some d' ∧ d'.id = d.id ∧
      (1 ≤ k → d'.last_documented_at = some (ts (k - 1)))) ∧
    (docsFor (docIter db p ti de pu gu cb ts k) d.id).map (·.version) = List.range' 1 k ∧
    (currentDocsFor (docIter db p ti de pu gu cb ts k) d.id).map (·.version)
      = if k = 0 then [] else [k] := by
  induction k with
  | zero =>
    refine ⟨⟨d, hd, rfl, by omega⟩, ?_, ?_⟩
    · show (docsFor db d.id).map (·.version) = List.range' 1 0
      rw [h0]
      rfl
    · have hall : ∀ r ∈ db.docs, ¬(r.directory_id = d.id) := by
        intro r hr hcon
        have hmem : r ∈ docsFor db d.id := by
          rw [docsFor, List.mem_filter]
          exact ⟨hr, by simp [hcon]⟩
        rw [h0] at hmem
        exact absurd hmem (List.not_mem_nil r)
      have hcur : currentDocsFor db d.id = [] := by
        rw [currentDocsFor, List.filter_eq_nil_iff]
        intro a ha
        simp only [decide_eq_true_eq, not_and]
        intro hdid
        exact absurd hdid (hall a ha)
      show (currentDocsFor db d.id).map (·.version) = if 0 = 0 then [] else [0]
      rw [hcur]
      rfl
  | succ k ih =>
    obtain ⟨⟨d', hfind, hid, _hts⟩, hvers, _hcurr⟩ := ih
    have hmax : maxDocVersion (docIter db p ti de pu gu cb ts k).docs d'.id = k := by
      rw [hid]
      show ((docsFor (docIter db p ti de pu gu cb ts k) d.id).map (·.version)).foldr max 0 = k
      rw [hvers, foldr_max_range']
    have hiter2 : docIter db p ti de pu gu cb ts (k + 1)
        = { docIter db p ti de pu gu cb ts k with
            docs := (docIter db p ti de pu gu cb ts k).docs.map (clearCurrentFor d'.id)
              ++ [⟨d'.id, maxDocVersion (docIter db p ti de pu gu cb ts k).docs d'.id + 1,
                    ti, de, pu, gu, ts k, cb, true⟩]
            directories := (docIter db p ti de pu gu cb ts k).directories.map
              (stampDirFor d'.id (ts k)) } := by
      show (add_directory_documentation (docIter db p ti de pu gu cb ts k)
          p ti de pu gu cb (ts k) false false false).2 = _
      rw [add_doc_success (docIter db p ti de pu gu cb ts k) p ti de pu gu cb (ts k) d' hfind]
    refine ⟨⟨stampDirFor d'.id (ts k) d', ?_, ?_, ?_⟩, ?_, ?_⟩
    · rw [hiter2]
      show ((docIter db p ti de pu gu cb ts k).directories.map
          (stampDirFor d'.id (ts k))).find? (fun r => decide (r.dir_path = p)) = _
      rw [List.find?_map]
      have hcomp : ((fun r : DirRow => decide (r.dir_path = p)) ∘ stampDirFor d'.id (ts k))
          = (fun r : DirRow => decide (r.dir_path = p)) := by
        funext r
        simp [stampDirFor_dir_path]
      rw [hcomp]
      rw [show findDir (docIter db p ti de pu gu cb ts k) p
          = (docIter db p ti de pu gu cb ts k).directories.find?
              (fun r => decide (r.dir_path = p)) from rfl] at hfind
      rw [hfind]
      rfl
    · rw [← hid]
      simp [stampDirFor]
    · intro _
      simp [stampDirFor]
    · rw [hiter2]
      show (((docIter db p ti de pu gu cb ts k).docs.map (clearCurrentFor d'.id)
          ++ [(⟨d'.id, maxDocVersion (docIter db p ti de pu gu cb ts k).docs d'.id + 1,
                ti, de, pu, gu, ts k, cb, true⟩ : DocRow)]).filter
            (fun r : DocRow => decide (r.directory_id = d.id))).map (·.version)
        = List.range' 1 (k + 1)
      rw [List.filter_append, filter_did_map_clear, hmax,
        List.filter_cons_of_pos (by simp [hid]), List.filter_nil, List.map_append,
        map_version_map_clear]
      show (docsFor (docIter db p ti de pu gu cb ts k) d.id).map (·.version) ++ [k + 1]
        = List.range' 1 (k + 1)
      rw [hvers, List.range'_1_concat]
      simp [Nat.add_comm]
    · rw [hiter2]
      show (((docIter db p ti de pu gu cb ts k).docs.map (clearCurrentFor d'.id)
          ++ [(⟨d'.id, maxDocVersion (docIter db p ti de pu gu cb ts k).docs d'.id + 1,
                ti, de, pu, gu, ts k, cb, true⟩ : DocRow)]).filter
            (fun r : DocRow => decide (r.directory_id = d.id ∧ r.is_current = true))).map
              (·.version)
        = if k + 1 = 0 then [] else [k + 1]
      have hmax2 : maxDocVersion (docIter db p ti de pu gu cb ts k).docs d.id = k := by
        rw [← hid]
        exact hmax
      rw [List.filter_append, hid, currents_map_clear, hmax2,
        List.filter_cons_of_pos (by simp), List.filter_nil]
      simp

/-- C2: calling `add_directory_documentation` `N ≥ 1` times on a cataloged
directory with no prior documentation yields exactly the versions `1..N`,
with exactly one current row (the last inserted) after every call, each
call succeeding and stamping the directory's `last_documented_at` with its
clock. -/
theorem C2_doc_versioning (db : DB) (p ti de pu gu cb : String) (ts : Nat → Nat) (d : DirRow)
    (N : Nat) (hd : findDir db p = some d) (h0 : docsFor db d.id = []) (hN : 1 ≤ N) :
    (docsFor (docIter db p ti de pu gu cb ts N) d.id).map (·.version) = List.range' 1 N ∧
    (currentDocsFor (docIter db p ti de pu gu cb ts N) d.id).map (·.version) = [N] ∧
    (∃ d', findDir (docIter db p ti de pu gu cb ts N) p = some d' ∧ d'.id = d.id ∧
      d'.last_documented_at = some (ts (N - 1))) ∧
    (∀ k, k < N →
      (add_directory_documentation (docIter db p ti de pu gu cb ts k) p ti de pu gu cb (ts k)
        false false false).1 = true ∧
      (currentDocsFor (docIter db p ti de pu gu cb ts (k + 1)) d.id).map (·.version)
        = [k + 1]) := by
  obtain ⟨⟨d', hfind, hid, hts⟩, hvers, hcurr⟩ :=
    docIter_invariant db p ti de pu gu cb ts d hd h0 N
  refine ⟨hvers, ?_, ⟨d', hfind, hid, hts hN⟩, ?_⟩
  · rw [hcurr, if_neg (by omega)]
  · intro k hk
    obtain ⟨⟨dk, hfk, _hidk, _⟩, _, _⟩ := docIter_invariant db p ti de pu gu cb ts d hd h0 k
    constructor
    · rw [add_doc_success (docIter db p ti de pu gu cb ts k) p ti de pu gu cb (ts k) dk hfk]
    · obtain ⟨_, _, hcurrk⟩ := docIter_invariant db p ti de pu gu cb ts d hd h0 (k + 1)
      rw [hcurrk, if_neg (by omega)]

/-- Witness for C2: documenting `/data` twice in the one-directory catalog
yields versions 1 and 2 with version 2 current. -/
theorem C2_doc_versioning_witness :
    (docsFor (docIter dbOneDir "/data" "T" "D" "P" "G" "sys" (fun k => k + 10) 2)
        (DirRow.id ⟨1, "/data", "data", "/", 2, 0, 0, 0, none⟩)).map (·.version)
      = List.range' 1 2 ∧
    (currentDocsFor (docIter dbOneDir "/data" "T" "D" "P" "G" "sys" (fun k => k + 10) 2)
        (DirRow.id ⟨1, "/data", "data", "/", 2, 0, 0, 0, none⟩)).map (·.version) = [2] ∧
    (∃ d', findDir (docIter dbOneDir "/data" "T" "D" "P" "G" "sys" (fun k => k + 10) 2)
        "/data" = some d' ∧ d'.id = DirRow.id ⟨1, "/data", "data", "/", 2, 0, 0, 0, none⟩ ∧
      d'.last_documented_at = some ((fun k => k + 10) (2 - 1))) ∧
    (∀ k, k < 2 →
      (add_directory_documentation
        (docIter dbOneDir "/data" "T" "D" "P" "G" "sys" (fun k => k + 10) k)
        "/data" "T" "D" "P" "G" "sys" ((fun k => k + 10) k) false false false).1 = true ∧
      (currentDocsFor (docIter dbOneDir "/data" "T" "D" "P" "G" "sys" (fun k => k + 10) (k + 1))
        (DirRow.id ⟨1, "/data", "data", "/", 2, 0, 0, 0, none⟩)).map (·.version) = [k + 1]) :=
  C2_doc_versioning dbOneDir "/data" "T" "D" "P" "G" "sys" (fun k => k + 10)
    ⟨1, "/data", "data", "/", 2, 0, 0, 0, none⟩ 2 (by decide) (by decide) (by decide)

/-- C8: documenting an uncataloged path returns an explicit `False` with
the catalog untouched; and in general the call either leaves the catalog
exactly as it was (directory missing, or any statement of the transaction
failing before commit) or returns `True` having committed all four steps
— clear current flags, insert version `max + 1` as current, and stamp the
directory — together. -/
theorem C8_docs_not_found_and_atomicity (db : DB) (p ti de pu gu cb : String) (t : Nat)
    (f1 f2 f3 : Bool) :
    (findDir db p = none →
      add_directory_documentation db p ti de pu gu cb t f1 f2 f3 = (false, db)) ∧
    ((add_directory_documentation db p ti de pu gu cb t f1 f2 f3).2 = db ∨
      ((add_directory_documentation db p ti de pu gu cb t f1 f2 f3).1 = true ∧
        ∃ d, findDir db p = some d ∧
          (add_directory_documentation db p ti de pu gu cb t f1 f2 f3).2
            = { db with
                docs := db.docs.map (clearCurrentFor d.id)
                  ++ [⟨d.id, maxDocVersion db.docs d.id + 1, ti, de, pu, gu, t, cb, true⟩]
                directories := db.directories.map (stampDirFor d.id t) })) := by
  constructor
  · intro h
    unfold add_directory_documentation
    rw [h]
  · cases hfd : findDir db p with
    | none =>
      left
      unfold add_directory_documentation
      rw [hfd]
    | some d =>
      cases f1 with
      | true =>
        left
        unfold add_directory_documentation
        rw [hfd]
        rfl
      | false =>
        cases f2 with
        | true =>
          left
          unfold add_directory_documentation
          rw [hfd]
          rfl
        | false =>
          cases f3 with
          | true =>
            left
            unfold add_directory_documentation
            rw [hfd]
            rfl
          | false =>
            right
            refine ⟨?_, d, rfl, ?_⟩
            · rw [add_doc_success db p ti de pu gu cb t d hfd]
            · rw [add_doc_success db p ti de pu gu cb t d hfd]

/-- Witness for C8: the missing path `/nope` is reported as failure with
the one-directory catalog unchanged, and on `/data` the transaction
commits whole. -/
theorem C8_docs_not_found_and_atomicity_witness :
    ((findDir dbOneDir "/nope" = none →
      add_directory_documentation dbOneDir "/nope" "T" "D" "P" "G" "sys" 4 false false false
        = (false, dbOneDir)) ∧
    ((add_directory_documentation dbOneDir "/nope" "T" "D" "P" "G" "sys" 4 false false false).2
        = dbOneDir ∨
      ((add_directory_documentation dbOneDir "/nope" "T" "D" "P" "G" "sys" 4
          false false false).1 = true ∧
        ∃ d, findDir dbOneDir "/nope" = some d ∧
          (add_directory_documentation dbOneDir "/nope" "T" "D" "P" "G" "sys" 4
              false false false).2
            = { dbOneDir with
                docs := dbOneDir.docs.map (clearCurrentFor d.id)
                  ++ [⟨d.id, maxDocVersion dbOneDir.docs d.id + 1,
                        "T", "D", "P", "G", 4, "sys", true⟩]
                directories := dbOneDir.directories.map (stampDirFor d.id 4) }))) :=
  C8_docs_not_found_and_atomicity dbOneDir "/nope" "T" "D" "P" "G" "sys" 4 false false false

/-! ## Step-level lemmas for the idempotence argument -/

theorem process_directory_files (db : DB) (dd : FSDir) (now : Nat) :
    (process_directory db dd now).files = db.files := by
  unfold process_directory
  split <;> rfl

theorem process_directory_queue (db : DB) (dd : FSDir) (now : Nat) :
    (process_directory db dd now).queue = db.queue := by
  unfold process_directory
  split <;> rfl

theorem save_to_db_directories (db : DB) (info : FileInfo) (now : Nat) :
    (save_to_db db info now).directories = db.directories := by
  unfold save_to_db insertOrReplaceFile
  split <;> rfl

theorem filePaths_step_file_some (fmts : List String) (now : Nat) (db : DB) (f : FSFile)
    (st : StatInfo) (hst : f.stat = some st) :
    filePathsOf (stepEntry fmts now db (.file f))
      = (filePathsOf db).filter (fun q => decide (q ≠ f.path)) ++ [f.path] := by
  obtain ⟨info, hpf, hp, _, _, _, _, _, _⟩ := process_file_some_of_stat fmts now f st hst
  rw [stepEntry_of_process fmts now db f info hpf]
  unfold filePathsOf save_to_db insertOrReplaceFile
  simp only [List.map_append, hp]
  rw [map_key_filter_ne (fun r : FileRow => r.file_path) f.path db.files]
  rfl

theorem stepEntry_file_none (fmts : List String) (now : Nat) (db : DB) (f : FSFile)
    (hst : f.stat = none) :
    stepEntry fmts now db (.file f) = db := by
  have hpf : process_file fmts now f = none := by
    simp [process_file, hst]
  simp [stepEntry, hpf]

theorem dirPaths_step_dir_some (fmts : List String) (now : Nat) (db : DB) (dd : FSDir)
    (st : StatInfo) (hst : dd.stat = some st) :
    dirPathsOf (stepEntry fmts now db (.dir dd))
      = (dirPathsOf db).filter (fun q => decide (q ≠ dd.path)) ++ [dd.path] := by
  show dirPathsOf (process_directory db dd now) = _
  unfold dirPathsOf process_directory
  rw [hst]
  simp only [List.map_append]
  rw [map_key_filter_ne (fun r : DirRow => r.dir_path) dd.path db.directories]
  rfl

theorem stepEntry_dir_none (fmts : List String) (now : Nat) (db : DB) (dd : FSDir)
    (hst : dd.stat = none) :
    stepEntry fmts now db (.dir dd) = db := by
  show process_directory db dd now = db
  unfold process_directory
  rw [hst]

theorem filePaths_step_dir (fmts : List String) (now : Nat) (db : DB) (dd : FSDir) :
    filePathsOf (stepEntry fmts now db (.dir dd)) = filePathsOf db := by
  show filePathsOf (process_directory db dd now) = _
  unfold filePathsOf
  rw [process_directory_files]

theorem dirPaths_step_file (fmts : List String) (now : Nat) (db : DB) (f : FSFile) :
    dirPathsOf (stepEntry fmts now db (.file f)) = dirPathsOf db := by
  cases hpf : process_file fmts now f with
  | none =>
    have hstep : stepEntry fmts now db (.file f) = db := by
      simp [stepEntry, hpf]
    rw [hstep]
  | some info =>
    rw [stepEntry_of_process fmts now db f info hpf]
    unfold dirPathsOf
    rw [save_to_db_directories]

/-- Membership in a replaced-by-key path list. -/
theorem mem_filter_ne_append (l : List String) (p q : String) :
    q ∈ l.filter (fun x => decide (x ≠ p)) ++ [p] ↔ q ∈ l ∨ q = p := by
  by_cases h : q = p <;> simp [List.mem_filter, h]

/-- Replacing a path keeps a duplicate-free path list duplicate-free. -/
theorem nodup_filter_ne_append (l : List String) (p : String) (h : l.Nodup) :
    (l.filter (fun x => decide (x ≠ p)) ++ [p]).Nodup := by
  rw [List.nodup_append]
  refine ⟨h.filter _, List.nodup_singleton p, ?_⟩
  intro x hx hp
  rw [List.mem_singleton] at hp
  subst hp
  have := List.of_mem_filter hx
  simp at this

theorem mem_filePaths_step (fmts : List String) (now : Nat) (db : DB) (e : Entry) (q : String) :
    q ∈ filePathsOf (stepEntry fmts now db e) ↔
      q ∈ filePathsOf db ∨ touchesFile e q = true := by
  cases e with
  | file f =>
    cases hst : f.stat with
    | none =>
      rw [stepEntry_file_none fmts now db f hst]
      simp [touchesFile, hst]
    | some st =>
      rw [filePaths_step_file_some fmts now db f st hst, mem_filter_ne_append]
      simp [touchesFile, hst, eq_comm]
  | dir dd =>
    rw [filePaths_step_dir]
    simp [touchesFile]

theorem mem_dirPaths_step (fmts : List String) (now : Nat) (db : DB) (e : Entry) (q : String) :
    q ∈ dirPathsOf (stepEntry fmts now db e) ↔
      q ∈ dirPathsOf db ∨ touchesDir e q = true := by
  cases e with
  | file f =>
    rw [dirPaths_step_file]
    simp [touchesDir]
  | dir dd =>
    cases hst : dd.stat with
    | none =>
      rw [stepEntry_dir_none fmts now db dd hst]
      simp [touchesDir, hst]
    | some st =>
      rw [dirPaths_step_dir_some fmts now db dd st hst, mem_filter_ne_append]
      simp [touchesDir, hst, eq_comm]

theorem nodup_filePaths_step (fmts : List String) (now : Nat) (db : DB) (e : Entry)
    (h : (filePathsOf db).Nodup) :
    (filePathsOf (stepEntry fmts now db e)).Nodup := by
  cases e with
  | file f =>
    cases hst : f.stat with
    | none =>
      rw [stepEntry_file_none fmts now db f hst]
      exact h
    | some st =>
      rw [filePaths_step_file_some fmts now db f st hst]
      exact nodup_filter_ne_append _ _ h
  | dir dd =>
    rw [filePaths_step_dir]
    exact h

theorem nodup_dirPaths_step (fmts : List String) (now : Nat) (db : DB) (e : Entry)
    (h : (dirPathsOf db).Nodup) :
    (dirPathsOf (stepEntry fmts now db e)).Nodup := by
  cases e with
  | file f =>
    rw [dirPaths_step_file]
    exact h
  | dir dd =>
    cases hst : dd.stat with
    | none =>
      rw [stepEntry_dir_none fmts now db dd hst]
      exact h
    | some st =>
      rw [dirPaths_step_dir_some fmts now db dd st hst]
      exact nodup_filter_ne_append _ _ h

theorem checksumOfPath_step (fmts : List String) (now : Nat) (db : DB) (e : Entry)
    (p : String) :
    checksumOfPath (stepEntry fmts now db e) p
      = (entryCk e p).elim (checksumOfPath db p) some := by
  cases e with
  | file f =>
    cases hst : f.stat with
    | none =>
      rw [stepEntry_file_none fmts now db f hst]
      simp [entryCk, hst]
    | some st =>
      obtain ⟨info, hpf, hpth, hc, _, _, _, _, _⟩ :=
        process_file_some_of_stat fmts now f st hst
      by_cases hp : f.path = p
      · have hrhs : entryCk (.file f) p = some f.checksum := by
          simp [entryCk, hp, hst]
        rw [hrhs]
        have heq : info.file_path = p := by rw [hpth, hp]
        rw [stepEntry_of_process fmts now db f info hpf]
        unfold checksumOfPath save_to_db insertOrReplaceFile
        simp only [heq]
        rw [find?_key_replace (fun r : FileRow => r.file_path) p db.files _ rfl]
        simp [hc]
      · have hrhs : entryCk (.file f) p = none := by
          simp [entryCk, hp]
        rw [hrhs]
        have hq : p ≠ info.file_path := by
          rw [hpth]
          exact fun h => hp h.symm
        rw [stepEntry_of_process fmts now db f info hpf]
        unfold checksumOfPath save_to_db insertOrReplaceFile
        simp only []
        rw [find?_key_replace_other (fun r : FileRow => r.file_path) info.file_path p
          db.files _ rfl hq]
        rfl
  | dir dd =>
    have hfiles : (stepEntry fmts now db (.dir dd)).files = db.files :=
      process_directory_files db dd now
    unfold checksumOfPath
    rw [hfiles]
    rfl

theorem checksumOfPath_run (fmts : List String) (now : Nat) (es : List Entry) (p : String) :
    ∀ db, checksumOfPath (index_directory fmts now db es) p
      = (esCk es p).elim (checksumOfPath db p) some := by
  induction es with
  | nil => intro db; rfl
  | cons e es ih =>
    intro db
    show checksumOfPath (index_directory fmts now (stepEntry fmts now db e) es) p = _
    rw [ih, checksumOfPath_step]
    cases hes : esCk es p with
    | some v => simp [esCk, hes, Option.orElse]
    | none => simp [esCk, hes, Option.orElse]

theorem mem_filePaths_run (fmts : List String) (now : Nat) (es : List Entry) (q : String) :
    ∀ db, q ∈ filePathsOf (index_directory fmts now db es) ↔
      q ∈ filePathsOf db ∨ es.any (fun e => touchesFile e q) = true := by
  induction es with
  | nil => intro db; simp [index_directory]
  | cons e es ih =>
    intro db
    show q ∈ filePathsOf (index_directory fmts now (stepEntry fmts now db e) es) ↔ _
    rw [ih, mem_filePaths_step]
    simp [List.any_cons, or_assoc]

theorem mem_dirPaths_run (fmts : List String) (now : Nat) (es : List Entry) (q : String) :
    ∀ db, q ∈ dirPathsOf (index_directory fmts now db es) ↔
      q ∈ dirPathsOf db ∨ es.any (fun e => touchesDir e q) = true := by
  induction es with
  | nil => intro db; simp [index_directory]
  | cons e es ih =>
    intro db
    show q ∈ dirPathsOf (index_directory fmts now (stepEntry fmts now db e) es) ↔ _
    rw [ih, mem_dirPaths_step]
    simp [List.any_cons, or_assoc]

theorem nodup_filePaths_run (fmts : List String) (now : Nat) (es : List Entry) :
    ∀ db, (filePathsOf db).Nodup →
      (filePathsOf (index_directory fmts now db es)).Nodup := by
  induction es with
  | nil => intro db h; exact h
  | cons e es ih =>
    intro db h
    exact ih _ (nodup_filePaths_step fmts now db e h)

theorem nodup_dirPaths_run (fmts : List String) (now : Nat) (es : List Entry) :
    ∀ db, (dirPathsOf db).Nodup →
      (dirPathsOf (index_directory fmts now db es)).Nodup := by
  induction es with
  | nil => intro db h; exact h
  | cons e es ih =>
    intro db h
    exact ih _ (nodup_dirPaths_step fmts now db e h)

theorem length_eq_of_nodup_iff {α : Type} [DecidableEq α] (l1 l2 : List α)
    (h1 : l1.Nodup) (h2 : l2.Nodup) (hm : ∀ x, x ∈ l1 ↔ x ∈ l2) :
    l1.length = l2.length := by
  rw [← List.toFinset_card_of_nodup h1, ← List.toFinset_card_of_nodup h2]
  congr 1
  ext x
  simp only [List.mem_toFinset]
  exact hm x

/-- C4: re-indexing the same traversal with no filesystem changes is
idempotent on the `files` and `directories` tables — equal row counts and
equal stored checksums per path — and at no intermediate point of either
run do two rows share a path. -/
theorem C4_reindex_idempotent (fmts : List String) (t1 t2 : Nat) (es : List Entry) (db : DB)
    (hf : (filePathsOf db).Nodup) (hd : (dirPathsOf db).Nodup) :
    (index_directory fmts t2 (index_directory fmts t1 db es) es).files.length
      = (index_directory fmts t1 db es).files.length ∧
    (index_directory fmts t2 (index_directory fmts t1 db es) es).directories.length
      = (index_directory fmts t1 db es).directories.length ∧
    (∀ p, checksumOfPath (index_directory fmts t2 (index_directory fmts t1 db es) es) p
      = checksumOfPath (index_directory fmts t1 db es) p) ∧
    (∀ n, (filePathsOf (index_directory fmts t1 db (es.take n))).Nodup ∧
      (dirPathsOf (index_directory fmts t1 db (es.take n))).Nodup) ∧
    (∀ n, (filePathsOf (index_directory fmts t2 (index_directory fmts t1 db es)
        (es.take n))).Nodup ∧
      (dirPathsOf (index_directory fmts t2 (index_directory fmts t1 db es)
        (es.take n))).Nodup) := by
  have hnf1 : (filePathsOf (index_directory fmts t1 db es)).Nodup :=
    nodup_filePaths_run fmts t1 es db hf
  have hnd1 : (dirPathsOf (index_directory fmts t1 db es)).Nodup :=
    nodup_dirPaths_run fmts t1 es db hd
  have hnf2 : (filePathsOf (index_directory fmts t2 (index_directory fmts t1 db es) es)).Nodup :=
    nodup_filePaths_run fmts t2 es _ hnf1
  have hnd2 : (dirPathsOf (index_directory fmts t2 (index_directory fmts t1 db es) es)).Nodup :=
    nodup_dirPaths_run fmts t2 es _ hnd1
  have hmemf : ∀ q, q ∈ filePathsOf (index_directory fmts t2 (index_directory fmts t1 db es) es)
      ↔ q ∈ filePathsOf (index_directory fmts t1 db es) := by
    intro q
    rw [mem_filePaths_run fmts t2 es q (index_directory fmts t1 db es),
      mem_filePaths_run fmts t1 es q db]
    tauto
  have hmemd : ∀ q, q ∈ dirPathsOf (index_directory fmts t2 (index_directory fmts t1 db es) es)
      ↔ q ∈ dirPathsOf (index_directory fmts t1 db es) := by
    intro q
    rw [mem_dirPaths_run fmts t2 es q (index_directory fmts t1 db es),
      mem_dirPaths_run fmts t1 es q db]
    tauto
  refine ⟨?_, ?_, ?_, ?_, ?_⟩
  · have := length_eq_of_nodup_iff _ _ hnf2 hnf1 hmemf
    simpa [filePathsOf] using this
  · have := length_eq_of_nodup_iff _ _ hnd2 hnd1 hmemd
    simpa [dirPathsOf] using this
  · intro p
    rw [checksumOfPath_run fmts t2 es p (index_directory fmts t1 db es)]
    cases hes : esCk es p with
    | none => rfl
    | some v =>
      rw [checksumOfPath_run fmts t1 es p db, hes]
      rfl
  · intro n
    exact ⟨nodup_filePaths_run fmts t1 (es.take n) db hf,
      nodup_dirPaths_run fmts t1 (es.take n) db hd⟩
  · intro n
    exact ⟨nodup_filePaths_run fmts t2 (es.take n) _ hnf1,
      nodup_dirPaths_run fmts t2 (es.take n) _ hnd1⟩

/-- Witness for C4 on the concrete two-file traversal from the empty
catalog: the second run leaves the same number of file rows. -/
theorem C4_reindex_idempotent_witness :
    (index_directory ["txt"] 7 (index_directory ["txt"] 3 emptyDB esAB) esAB).files.length
      = (index_directory ["txt"] 3 emptyDB esAB).files.length :=
  (C4_reindex_idempotent ["txt"] 3 7 esAB emptyDB (by decide) (by decide)).1
